import Mathlib

/-
Shallow embedding of the idlerpg-slack bot core (src/idlerpgslack/bot.py).

Modelling conventions:
- Wall-clock time (Python time.time()) is modelled as Int.  The accounting
  logic is arithmetic over the clock values and is representation-agnostic;
  float formatting/rounding is out of scope.
- The users dictionary (self._users) is an association list Ledger, with
  Python dict semantics: lookup finds the (unique) key, assignment to an
  existing key rewrites its value in place, insertion appends.
- Fallible Python operations (KeyError on a missing dict key, TypeError on
  None arithmetic in set_offline) are modelled with Option: none = the
  Python code raises.
- The Slack API calls made by the bot (users.info, users.getPresence,
  conversations.members) and the db module's load result are modelled as an
  environment of pure functions (SlackEnv), since the event-processing code
  treats them as synchronous oracles.
-/

namespace IdleRpg

/-- Profile fields used by the display-name fallback chain in
_handle_command's scores branch (display_name, real_name, email). -/
structure Profile where
  display_name : String
  real_name : String
  email : String
deriving Repr, DecidableEq

/-- Result of api.get_user_info (Slack users.info): the is_bot flag and the
profile, the only fields _update_user reads. -/
structure UserInfo where
  is_bot : Bool
  profile : Profile
deriving Repr, DecidableEq

/-- One user record of self._users, as created in _update_user:
keys profile, active, first_seen, total. -/
structure UserRec where
  profile : Profile
  active : Bool
  first_seen : Option Int
  total : Int
deriving Repr, DecidableEq

/-- The self._users dictionary: association list keyed by Slack user id. -/
abbrev Ledger := List (String × UserRec)

/-- Environment of external calls used while handling events: users.info,
users.getPresence, time.time(), conversations.members of the rpg channel,
and the ledger that db.load would return. -/
structure SlackEnv where
  get_user_info : String → UserInfo
  is_user_active : String → Bool
  now : Int
  channel_members : List String
  db_users : Ledger

/-- An inbound RTM event: the dict keys the bot reads.  A missing key is
none (reading it raises KeyError in Python). -/
structure Event where
  type : Option String
  text : Option String
  user : Option String
  channel : Option String

/-- Python dict lookup users[user_id] on the association list. -/
def findUser (uid : String) : Ledger → Option UserRec
  | [] => none
  | (k, u) :: rest => if k = uid then some u else findUser uid rest

/-- Python dict assignment users[user_id] = v for a key already present:
rewrite the entry in place, keys and order unchanged. -/
def setEntry : Ledger → String → UserRec → Ledger
  | [], _, _ => []
  | (k, u) :: rest, uid, v =>
    if k = uid then (uid, v) :: setEntry rest uid v
    else (k, u) :: setEntry rest uid v

/-- The record created for a newly seen non-bot user in _update_user:
active False, first_seen None, total 0. -/
def freshRec (p : Profile) : UserRec :=
  { profile := p, active := false, first_seen := none, total := 0 }

/-- Record-level effect of set_online on the user's entry:
active = True, first_seen = now. -/
def setOnlineRec (u : UserRec) (now : Int) : UserRec :=
  { u with active := true, first_seen := some now }

/-- Record-level effect of set_offline on the user's entry: active = False,
total += now - first_seen, first_seen = None.  If first_seen is None the
Python code raises TypeError on the subtraction: none. -/
def setOfflineRec (u : UserRec) (now : Int) : Option UserRec :=
  match u.first_seen with
  | none => none
  | some t =>
    some { u with active := false, total := u.total + (now - t), first_seen := none }

/-- set_online(users, user_id) from bot.py (module level): mutates the
entry; a missing key raises KeyError (none). -/
def set_online (users : Ledger) (uid : String) (now : Int) : Option Ledger :=
  match findUser uid users with
  | none => none
  | some u => some (setEntry users uid (setOnlineRec u now))

/-- set_offline(users, user_id) from bot.py (module level): mutates the
entry; a missing key or a None first_seen raises (none). -/
def set_offline (users : Ledger) (uid : String) (now : Int) : Option Ledger :=
  match findUser uid users with
  | none => none
  | some u => (setOfflineRec u now).map (fun u' => setEntry users uid u')

/-- Record-level presence transition of _update_user lines 87-95: if the
reported presence is true and the record is inactive, set_online; if false
and the record is active, set_offline; otherwise no change. -/
def applyPresenceRec (u : UserRec) (presence : Bool) (now : Int) : Option UserRec :=
  if presence then
    if u.active then some u else some (setOnlineRec u now)
  else
    if u.active then setOfflineRec u now else some u

/-- Ledger-level presence phase of _update_user (lines 87-95): reads
self._users[user_id]['active'] (KeyError if absent) and dispatches to
set_online / set_offline exactly as the source does. -/
def applyPresenceL (env : SlackEnv) (users : Ledger) (uid : String) : Option Ledger :=
  match findUser uid users with
  | none => none
  | some u =>
    if env.is_user_active uid then
      if u.active then some users else set_online users uid env.now
    else
      if u.active then set_offline users uid env.now else some users

/-- _update_user(user_id): when the id is unseen, fetch user info; a bot is
rejected with an early return (ledger unchanged); otherwise a fresh record
is inserted.  Then the presence phase runs. -/
def updateUser (env : SlackEnv) (users : Ledger) (uid : String) : Option Ledger :=
  match findUser uid users with
  | none =>
    let info := env.get_user_info uid
    if info.is_bot then some users
    else applyPresenceL env (users ++ [(uid, freshRec info.profile)]) uid
  | some _ => applyPresenceL env users uid

/-- _update_all_users restricted to a given member list: run _update_user on
each channel member in order. -/
def updateAllUsers (env : SlackEnv) : List String → Ledger → Option Ledger
  | [], users => some users
  | m :: rest, users =>
    match updateUser env users m with
    | none => none
    | some users' => updateAllUsers env rest users'

/-- The save() loop applied to the deep copy: every active entry is closed
with set_offline (which only rewrites that entry, so the loop is the
per-entry transform); an active entry with first_seen None would raise. -/
def saveTransform : Ledger → Int → Option Ledger
  | [], _ => some []
  | (k, u) :: rest, now =>
    match (if u.active then setOfflineRec u now else some u) with
    | none => none
    | some u' =>
      match saveTransform rest now with
      | none => none
      | some rest' => some ((k, u') :: rest')

/-- save(): current_users = copy.deepcopy(self._users); all active users in
the copy are set offline; db.save receives the copy.  db.py is not part of
src; per the spec's PersistenceGateway contract (saveLedger is a full
overwrite) it persists its argument verbatim.  Result: (the live ledger
after save - untouched, because only the deep copy was mutated; the
persisted ledger). -/
def saveOp (users : Ledger) (now : Int) : Option (Ledger × Ledger) :=
  (saveTransform users now).map (fun snapshot => (users, snapshot))

/-- Python str.lower() (ASCII-relevant part used for command names). -/
def pyLower (s : String) : String := String.mk (s.data.map Char.toLower)

/-- Helper for pySplit: accumulate the current token (reversed) and split on
whitespace runs, dropping empty tokens. -/
def splitWsAux : List Char → List Char → List String
  | [], acc => if acc = [] then [] else [String.mk acc.reverse]
  | c :: cs, acc =>
    if c.isWhitespace then
      if acc = [] then splitWsAux cs []
      else String.mk acc.reverse :: splitWsAux cs []
    else splitWsAux cs (c :: acc)

/-- Python str.split() with no separator: split on runs of whitespace,
no empty tokens, leading/trailing whitespace ignored. -/
def pySplit (s : String) : List String := splitWsAux s.data []

/-- Python str.startswith on the underlying character sequences. -/
def pyStartsWith (s pre : String) : Bool := List.isPrefixOf pre.data s.data

/-- Display-name resolution in the scores branch: name = display_name; if
empty, real_name; if still empty, email (sequential reassignment, exactly as
lines 121-125). -/
def displayName (p : Profile) : String :=
  let name := p.display_name
  let name := if name.length = 0 then p.real_name else name
  let name := if name.length = 0 then p.email else name
  name

/-- The per-user total computed in the scores branch (lines 127-130):
total = user['total']; if active, total += now - first_seen (TypeError if
first_seen is None).  This is the spec's liveTotal. -/
def liveTotal (u : UserRec) (now : Int) : Option Int :=
  if u.active then
    match u.first_seen with
    | none => none
    | some t => some (u.total + (now - t))
  else some u.total

/-- One line of the scores report: '{}: {}'.format(name, total). -/
def scoreLine (u : UserRec) (now : Int) : Option String :=
  (liveTotal u now).map (fun t => displayName u.profile ++ ": " ++ toString t)

/-- _handle_command(event, command, args): case-insensitive dispatch on the
command name; hello/hi greet, scores reports live totals, save persists a
forced-offline copy, load swaps in the db ledger and re-syncs members;
anything else falls through all elifs (no output, no state change).
Result: (new ledger, outbound (channel, text) messages); none = raise. -/
def handleCommand (env : SlackEnv) (users : Ledger) (channel : Option String)
    (command : String) (args : List String) : Option (Ledger × List (String × String)) :=
  if pyLower command = "hello" ∨ pyLower command = "hi" then
    match channel with
    | none => none
    | some ch => some (users, [(ch, "Hello from Python! :tada:")])
  else if pyLower command = "scores" then
    match List.mapM (fun p => scoreLine p.2 env.now) users, channel with
    | some lines, some ch =>
      some (users, [(ch, "Scores:\n" ++ String.intercalate "\n" lines)])
    | _, _ => none
  else if pyLower command = "save" then
    (saveOp users env.now).map (fun r => (r.1, []))
  else if pyLower command = "load" then
    (updateAllUsers env env.channel_members env.db_users).map (fun l' => (l', []))
  else some (users, [])

/-- The parsing stage of _handle_message: dispatch only when the text starts
with '<@' + self._id + '>'; chunks = text.split(); a command needs
len(chunks) > 1; the command name is chunks[1] and the arguments are
chunks[2:]. -/
def parseCommand (selfId text : String) : Option (String × List String) :=
  if pyStartsWith text ("<@" ++ selfId ++ ">") then
    match pySplit text with
    | _ :: cmd :: rest => some (cmd, rest)
    | _ => none
  else none

/-- _handle_message(event): reads event['text'] (KeyError if missing), then
parses and possibly dispatches a command. -/
def handleMessage (env : SlackEnv) (selfId : String) (users : Ledger)
    (e : Event) : Option (Ledger × List (String × String)) :=
  match e.text with
  | none => none
  | some text =>
    match parseCommand selfId text with
    | some (cmd, args) => handleCommand env users e.channel cmd args
    | none => some (users, [])

/-- _handle_presence_change(event): reads event['user'] (KeyError if
missing) and runs _update_user. -/
def handlePresenceChange (env : SlackEnv) (users : Ledger)
    (e : Event) : Option (Ledger × List (String × String)) :=
  match e.user with
  | none => none
  | some uid => (updateUser env users uid).map (fun l' => (l', []))

/-- _handle_event(event): reads event['type'] (KeyError if missing) and
routes message / presence_change; any other type string is ignored. -/
def handleEvent (env : SlackEnv) (selfId : String) (users : Ledger)
    (e : Event) : Option (Ledger × List (String × String)) :=
  match e.type with
  | none => none
  | some t =>
    if t = "message" then handleMessage env selfId users e
    else if t = "presence_change" then handlePresenceChange env users e
    else some (users, [])

/-- The per-record session invariant: first_seen is set iff active is true
(spec section 3). -/
def inv (u : UserRec) : Prop := u.first_seen.isSome = u.active

/-- Every record of the ledger satisfies the session invariant. -/
def invAll (l : Ledger) : Prop := ∀ p ∈ l, inv p.2

instance (u : UserRec) : Decidable (inv u) := by
  unfold inv
  infer_instance

instance (l : Ledger) : Decidable (invAll l) := by
  unfold invAll
  infer_instance

/-- One online/offline round for a single record: presence true at the first
component, then presence false at the second, via _update_user's transition
logic. -/
def runPairs : UserRec → List (Int × Int) → Option UserRec
  | u, [] => some u
  | u, (tOn, tOff) :: rest =>
    match applyPresenceRec u true tOn with
    | none => none
    | some u1 =>
      match applyPresenceRec u1 false tOff with
      | none => none
      | some u2 => runPairs u2 rest

/-- Sum of (offline_time - online_time) over a list of session pairs. -/
def sumPairs (ps : List (Int × Int)) : Int :=
  (ps.map (fun p => p.2 - p.1)).sum

/-- n repeated calls of _update_user for the same user id. -/
def repeatUpdate (env : SlackEnv) (uid : String) : Nat → Ledger → Option Ledger
  | 0, l => some l
  | n + 1, l =>
    match updateUser env l uid with
    | none => none
    | some l' => repeatUpdate env uid n l'

/-- Modelled from the spec's words, for refinement comparison only (claim
about the command-name rule): the first whitespace-separated token after the
mention prefix of the text. -/
def firstTokenAfterMention (selfId text : String) : Option String :=
  if pyStartsWith text ("<@" ++ selfId ++ ">") then
    (pySplit (text.drop ("<@" ++ selfId ++ ">").length)).head?
  else none

/-- A concrete profile for witnesses. -/
def p0 : Profile := { display_name := "Ann", real_name := "Anne", email := "ann@example.com" }

theorem mem_of_findUser {uid : String} {l : Ledger} {u : UserRec}
    (h : findUser uid l = some u) : (uid, u) ∈ l := by
  induction l with
  | nil => simp [findUser] at h
  | cons p rest ih =>
    obtain ⟨k, w⟩ := p
    simp only [findUser] at h
    split at h
    · next hk =>
      cases h
      subst hk
      exact List.mem_cons_self _ _
    · exact List.mem_cons_of_mem _ (ih h)

theorem findUser_setEntry_self (uid : String) (l : Ledger) (v : UserRec) :
    findUser uid (setEntry l uid v) = (findUser uid l).map (fun _ => v) := by
  induction l with
  | nil => simp [findUser, setEntry]
  | cons p rest ih =>
    obtain ⟨k, w⟩ := p
    by_cases hk : k = uid
    · subst hk
      simp [findUser, setEntry]
    · simp only [setEntry, if_neg hk, findUser]
      exact ih

theorem findUser_setEntry_ne {k uid : String} (hne : k ≠ uid) (l : Ledger) (v : UserRec) :
    findUser k (setEntry l uid v) = findUser k l := by
  induction l with
  | nil => simp [findUser, setEntry]
  | cons p rest ih =>
    obtain ⟨k', w⟩ := p
    by_cases hk : k' = uid
    · subst hk
      simp only [setEntry, if_pos rfl, findUser, if_neg (Ne.symm hne)]
      exact ih
    · simp only [setEntry, if_neg hk, findUser]
      by_cases hk2 : k' = k
      · simp [hk2]
      · rw [if_neg hk2, if_neg hk2]
        exact ih

theorem mem_setEntry {p : String × UserRec} {l : Ledger} {uid : String} {v : UserRec}
    (hp : p ∈ setEntry l uid v) : p = (uid, v) ∨ p ∈ l := by
  induction l with
  | nil => simp [setEntry] at hp
  | cons q rest ih =>
    obtain ⟨k, w⟩ := q
    by_cases hk : k = uid
    · rw [setEntry, if_pos hk] at hp
      rcases List.mem_cons.mp hp with hp | hp
      · exact Or.inl hp
      · rcases ih hp with hp | hp
        · exact Or.inl hp
        · exact Or.inr (List.mem_cons_of_mem _ hp)
    · rw [setEntry, if_neg hk] at hp
      rcases List.mem_cons.mp hp with hp | hp
      · exact Or.inr (hp ▸ List.mem_cons_self _ _)
      · rcases ih hp with hp | hp
        · exact Or.inl hp
        · exact Or.inr (List.mem_cons_of_mem _ hp)

theorem invAll_setEntry {l : Ledger} {v : UserRec} (uid : String)
    (h : invAll l) (hv : inv v) : invAll (setEntry l uid v) := by
  intro p hp
  rcases mem_setEntry hp with hp | hp
  · cases hp
    exact hv
  · exact h p hp

theorem findUser_append_ne {k m : String} (hne : k ≠ m) (l : Ledger) (w : UserRec) :
    findUser k (l ++ [(m, w)]) = findUser k l := by
  induction l with
  | nil => simp [findUser, if_neg (Ne.symm hne)]
  | cons p rest ih =>
    obtain ⟨k', v⟩ := p
    by_cases hk : k' = k
    · simp [findUser, hk]
    · simp only [List.cons_append, findUser, if_neg hk]
      exact ih

theorem findUser_append_self {m : String} {l : Ledger} (w : UserRec)
    (h : findUser m l = none) : findUser m (l ++ [(m, w)]) = some w := by
  induction l with
  | nil => simp [findUser]
  | cons p rest ih =>
    obtain ⟨k', v⟩ := p
    simp only [findUser] at h
    split at h
    · cases h
    · next hk =>
      simp only [List.cons_append, findUser, if_neg hk]
      exact ih h

theorem invAll_append {l : Ledger} {m : String} {w : UserRec}
    (h : invAll l) (hw : inv w) : invAll (l ++ [(m, w)]) := by
  intro p hp
  rcases List.mem_append.mp hp with hp | hp
  · exact h p hp
  · simp only [List.mem_singleton] at hp
    cases hp
    exact hw

theorem inv_freshRec (p : Profile) : inv (freshRec p) := rfl

theorem inv_setOnlineRec (u : UserRec) (now : Int) : inv (setOnlineRec u now) := rfl

theorem inv_setOfflineRec {u u' : UserRec} {now : Int}
    (h : setOfflineRec u now = some u') : inv u' := by
  unfold setOfflineRec at h
  split at h
  · cases h
  · cases h
    rfl

theorem applyPresenceRec_inv {u u' : UserRec} {b : Bool} {now : Int}
    (hu : inv u) (h : applyPresenceRec u b now = some u') : inv u' := by
  unfold applyPresenceRec at h
  split at h
  · split at h
    · cases h; exact hu
    · cases h; rfl
  · split at h
    · exact inv_setOfflineRec h
    · cases h; exact hu

theorem applyPresenceRec_active {u u' : UserRec} {b : Bool} {now : Int}
    (h : applyPresenceRec u b now = some u') : u'.active = b := by
  unfold applyPresenceRec at h
  split at h
  · next hb =>
    split at h
    · next ha => cases h; simpa [hb] using ha
    · cases h; simp [hb, setOnlineRec]
  · next hb =>
    simp only [Bool.not_eq_true] at hb
    split at h
    · unfold setOfflineRec at h
      split at h
      · cases h
      · cases h; simp [hb]
    · next ha =>
      cases h
      simp only [Bool.not_eq_true] at ha
      simp [hb, ha]

theorem applyPresenceRec_profile {u u' : UserRec} {b : Bool} {now : Int}
    (h : applyPresenceRec u b now = some u') : u'.profile = u.profile := by
  unfold applyPresenceRec at h
  split at h
  · split at h
    · cases h; rfl
    · cases h; rfl
  · split at h
    · unfold setOfflineRec at h
      split at h
      · cases h
      · cases h; rfl
    · cases h; rfl

theorem applyPresenceRec_total {u u' : UserRec} {b : Bool} {now : Int}
    (h : applyPresenceRec u b now = some u') :
    u'.total = u.total ∨
      (u.active = true ∧ b = false ∧
        ∃ t0, u.first_seen = some t0 ∧ u'.total = u.total + (now - t0)) := by
  unfold applyPresenceRec at h
  split at h
  · next hb =>
    split at h
    · cases h; exact Or.inl rfl
    · cases h; exact Or.inl rfl
  · next hb =>
    simp only [Bool.not_eq_true] at hb
    split at h
    · next ha =>
      unfold setOfflineRec at h
      split at h
      · cases h
      · next t0 hfs =>
        cases h
        exact Or.inr ⟨ha, hb, t0, hfs, rfl⟩
    · cases h; exact Or.inl rfl

theorem applyPresenceRec_matched {u : UserRec} {b : Bool} (now : Int)
    (h : u.active = b) : applyPresenceRec u b now = some u := by
  unfold applyPresenceRec
  cases b
  · simp [h]
  · simp [h]

theorem applyPresenceRec_success {u : UserRec} (b : Bool) (now : Int)
    (hu : inv u) : ∃ u', applyPresenceRec u b now = some u' := by
  unfold applyPresenceRec
  cases b
  · by_cases ha : u.active
    · unfold inv at hu
      rw [ha] at hu
      obtain ⟨t, ht⟩ := Option.isSome_iff_exists.mp hu
      refine ⟨{ u with active := false, total := u.total + (now - t), first_seen := none }, ?_⟩
      simp [ha, setOfflineRec, ht]
    · exact ⟨u, by simp [ha]⟩
  · by_cases ha : u.active
    · exact ⟨u, by simp [ha]⟩
    · exact ⟨setOnlineRec u now, by simp [ha]⟩

theorem applyPresenceL_char {env : SlackEnv} {users : Ledger} {uid : String} {u : UserRec}
    (hf : findUser uid users = some u) :
    (u.active = env.is_user_active uid ∧ applyPresenceL env users uid = some users) ∨
    (applyPresenceL env users uid =
      (applyPresenceRec u (env.is_user_active uid) env.now).map
        (fun u' => setEntry users uid u')) := by
  cases hpres : env.is_user_active uid with
  | true =>
    cases hact : u.active with
    | true =>
      left
      refine ⟨rfl, ?_⟩
      simp [applyPresenceL, hf, hpres, hact]
    | false =>
      right
      simp [applyPresenceL, hf, hpres, hact, set_online, applyPresenceRec]
  | false =>
    cases hact : u.active with
    | true =>
      right
      simp [applyPresenceL, hf, hpres, hact, set_offline, applyPresenceRec]
    | false =>
      left
      refine ⟨rfl, ?_⟩
      simp [applyPresenceL, hf, hpres, hact]

theorem applyPresenceL_invAll {env : SlackEnv} {users : Ledger} {uid : String} {l' : Ledger}
    (h : invAll users) (he : applyPresenceL env users uid = some l') : invAll l' := by
  cases hfind : findUser uid users with
  | none => simp [applyPresenceL, hfind] at he
  | some u =>
    rcases @applyPresenceL_char env users uid u hfind with ⟨_, heq⟩ | heq
    · rw [heq] at he
      cases he
      exact h
    · rw [heq] at he
      cases hrec : applyPresenceRec u (env.is_user_active uid) env.now with
      | none => rw [hrec] at he; cases he
      | some u' =>
        rw [hrec] at he
        cases he
        exact invAll_setEntry uid h
          (applyPresenceRec_inv (h _ (mem_of_findUser hfind)) hrec)

theorem applyPresenceL_success {env : SlackEnv} {users : Ledger} {uid : String} {u : UserRec}
    (hinv : inv u) (hf : findUser uid users = some u) :
    ∃ l', applyPresenceL env users uid = some l' := by
  rcases @applyPresenceL_char env users uid u hf with ⟨_, heq⟩ | heq
  · exact ⟨users, heq⟩
  · obtain ⟨u', hu'⟩ := applyPresenceRec_success (env.is_user_active uid) env.now hinv
    refine ⟨setEntry users uid u', ?_⟩
    rw [heq, hu']
    rfl

theorem applyPresenceL_self {env : SlackEnv} {users : Ledger} {uid : String}
    {u : UserRec} {l' : Ledger}
    (hf : findUser uid users = some u) (he : applyPresenceL env users uid = some l') :
    ∃ u', findUser uid l' = some u' ∧
      applyPresenceRec u (env.is_user_active uid) env.now = some u' := by
  rcases @applyPresenceL_char env users uid u hf with ⟨hmatch, heq⟩ | heq
  · rw [heq] at he
    cases he
    exact ⟨u, hf, applyPresenceRec_matched env.now hmatch⟩
  · rw [heq] at he
    cases hrec : applyPresenceRec u (env.is_user_active uid) env.now with
    | none => rw [hrec] at he; cases he
    | some u' =>
      rw [hrec] at he
      cases he
      refine ⟨u', ?_, rfl⟩
      rw [findUser_setEntry_self, hf]
      rfl

theorem applyPresenceL_other {env : SlackEnv} {users : Ledger} {uid : String} {l' : Ledger}
    {k : String} (hne : k ≠ uid)
    (he : applyPresenceL env users uid = some l') : findUser k l' = findUser k users := by
  cases hfind : findUser uid users with
  | none => simp [applyPresenceL, hfind] at he
  | some u =>
    rcases @applyPresenceL_char env users uid u hfind with ⟨_, heq⟩ | heq
    · rw [heq] at he
      cases he
      rfl
    · rw [heq] at he
      cases hrec : applyPresenceRec u (env.is_user_active uid) env.now with
      | none => rw [hrec] at he; cases he
      | some u' =>
        rw [hrec] at he
        cases he
        exact findUser_setEntry_ne hne users u'

theorem updateUser_invAll {env : SlackEnv} {l : Ledger} {uid : String} {l' : Ledger}
    (h : invAll l) (he : updateUser env l uid = some l') : invAll l' := by
  cases hfind : findUser uid l with
  | some u =>
    simp only [updateUser, hfind] at he
    exact applyPresenceL_invAll h he
  | none =>
    simp only [updateUser, hfind] at he
    by_cases hb : (env.get_user_info uid).is_bot
    · rw [if_pos hb] at he
      cases he
      exact h
    · rw [if_neg hb] at he
      exact applyPresenceL_invAll (invAll_append h (inv_freshRec _)) he

theorem updateUser_success {env : SlackEnv} {l : Ledger} (uid : String)
    (h : invAll l) : ∃ l', updateUser env l uid = some l' := by
  cases hfind : findUser uid l with
  | some u =>
    obtain ⟨l', hl'⟩ := @applyPresenceL_success env l uid u
      (h _ (mem_of_findUser hfind)) hfind
    refine ⟨l', ?_⟩
    simp only [updateUser, hfind]
    exact hl'
  | none =>
    by_cases hb : (env.get_user_info uid).is_bot
    · refine ⟨l, ?_⟩
      simp [updateUser, hfind, hb]
    · have hfresh := findUser_append_self
        (freshRec (env.get_user_info uid).profile) hfind
      obtain ⟨l', hl'⟩ := @applyPresenceL_success env
        (l ++ [(uid, freshRec (env.get_user_info uid).profile)]) uid _
        (inv_freshRec _) hfresh
      refine ⟨l', ?_⟩
      simp only [updateUser, hfind]
      rw [if_neg hb]
      exact hl'

theorem updateUser_entry {env : SlackEnv} {uid : String} {u v : UserRec} {l : Ledger}
    (m : String) (hInv : invAll l) (hv : findUser uid l = some v)
    (hstate : v = u ∨ applyPresenceRec u (env.is_user_active uid) env.now = some v) :
    ∃ l₁ v₁, updateUser env l m = some l₁ ∧ invAll l₁ ∧ findUser uid l₁ = some v₁ ∧
      (v₁ = u ∨ applyPresenceRec u (env.is_user_active uid) env.now = some v₁) := by
  obtain ⟨l₁, hl₁⟩ := @updateUser_success env l m hInv
  have hInv₁ := updateUser_invAll hInv hl₁
  by_cases hm : m = uid
  · subst hm
    have hred : updateUser env l m = applyPresenceL env l m := by
      simp only [updateUser, hv]
    rw [hred] at hl₁
    obtain ⟨v₁, hv₁, hrec⟩ := applyPresenceL_self hv hl₁
    refine ⟨l₁, v₁, by rw [hred]; exact hl₁, hInv₁, hv₁, ?_⟩
    rcases hstate with hs | hs
    · subst hs
      exact Or.inr hrec
    · have hb := applyPresenceRec_active hs
      have hmatched := applyPresenceRec_matched env.now hb
      rw [hmatched] at hrec
      cases hrec
      exact Or.inr hs
  · have huid : findUser uid l₁ = some v := by
      cases hfm : findUser m l with
      | some w =>
        have hred : updateUser env l m = applyPresenceL env l m := by
          simp only [updateUser, hfm]
        rw [hred] at hl₁
        rw [applyPresenceL_other (Ne.symm hm) hl₁]
        exact hv
      | none =>
        by_cases hb : (env.get_user_info m).is_bot
        · have hred : updateUser env l m = some l := by
            simp [updateUser, hfm, hb]
          rw [hred] at hl₁
          cases hl₁
          exact hv
        · have hred : updateUser env l m =
              applyPresenceL env (l ++ [(m, freshRec (env.get_user_info m).profile)]) m := by
            simp only [updateUser, hfm]
            rw [if_neg hb]
          rw [hred] at hl₁
          rw [applyPresenceL_other (Ne.symm hm) hl₁]
          rw [findUser_append_ne (Ne.symm hm)]
          exact hv
    exact ⟨l₁, v, hl₁, hInv₁, huid, hstate⟩

theorem updateAll_entry {env : SlackEnv} {uid : String} {u : UserRec} :
    ∀ (members : List String) (l : Ledger) (v : UserRec),
    invAll l → findUser uid l = some v →
    (v = u ∨ applyPresenceRec u (env.is_user_active uid) env.now = some v) →
    ∃ l' v', updateAllUsers env members l = some l' ∧ invAll l' ∧
      findUser uid l' = some v' ∧
      (v' = u ∨ applyPresenceRec u (env.is_user_active uid) env.now = some v') := by
  intro members
  induction members with
  | nil =>
    intro l v h hv hs
    exact ⟨l, v, rfl, h, hv, hs⟩
  | cons m rest ih =>
    intro l v h hv hs
    obtain ⟨l₁, v₁, hl₁, hInv₁, hv₁, hs₁⟩ := updateUser_entry m h hv hs
    obtain ⟨l', v', hl', hInv', hv', hs'⟩ := ih l₁ v₁ hInv₁ hv₁ hs₁
    refine ⟨l', v', ?_, hInv', hv', hs'⟩
    simp only [updateAllUsers, hl₁]
    exact hl'

theorem updateAllUsers_invAll_success {env : SlackEnv} :
    ∀ (members : List String) (l : Ledger), invAll l →
    ∃ l', updateAllUsers env members l = some l' ∧ invAll l' := by
  intro members
  induction members with
  | nil => intro l h; exact ⟨l, rfl, h⟩
  | cons m rest ih =>
    intro l h
    obtain ⟨l₁, hl₁⟩ := @updateUser_success env l m h
    obtain ⟨l', hl', hInv'⟩ := ih l₁ (updateUser_invAll h hl₁)
    refine ⟨l', ?_, hInv'⟩
    simp only [updateAllUsers, hl₁]
    exact hl'

theorem updateAllUsers_invAll {env : SlackEnv} :
    ∀ (members : List String) (l l' : Ledger), invAll l →
    updateAllUsers env members l = some l' → invAll l' := by
  intro members
  induction members with
  | nil =>
    intro l l' h he
    cases he
    exact h
  | cons m rest ih =>
    intro l l' h he
    simp only [updateAllUsers] at he
    cases hu : updateUser env l m with
    | none => rw [hu] at he; cases he
    | some l₁ =>
      rw [hu] at he
      exact ih l₁ l' (updateUser_invAll h hu) he

/-- The per-record effect of the save() loop on one entry, for stating the
saveTransform characterization: an active record is closed, an inactive one
is untouched (first_seen is read with a default that is irrelevant under the
invariant). -/
def forceOff (u : UserRec) (now : Int) : UserRec :=
  if u.active then
    { u with active := false, first_seen := none,
             total := u.total + (now - u.first_seen.getD 0) }
  else u

theorem saveTransform_eq_map {l : Ledger} {now : Int} (h : invAll l) :
    saveTransform l now = some (l.map (fun p => (p.1, forceOff p.2 now))) := by
  induction l with
  | nil => rfl
  | cons p rest ih =>
    obtain ⟨k, u⟩ := p
    have hu : inv u := h _ (List.mem_cons_self _ _)
    have hrest : invAll rest := fun q hq => h q (List.mem_cons_of_mem _ hq)
    by_cases ha : u.active
    · unfold inv at hu
      rw [ha] at hu
      obtain ⟨t, ht⟩ := Option.isSome_iff_exists.mp hu
      simp only [saveTransform, if_pos ha, setOfflineRec, ht, ih hrest]
      simp [forceOff, ha, ht]
    · simp only [saveTransform, if_neg ha, ih hrest]
      simp [forceOff, ha]

theorem findUser_map_forceOff (now : Int) (uid : String) :
    ∀ l : Ledger,
    findUser uid (l.map (fun q => (q.1, forceOff q.2 now))) =
      (findUser uid l).map (fun v => forceOff v now) := by
  intro l
  induction l with
  | nil => rfl
  | cons p rest ih =>
    obtain ⟨k, u⟩ := p
    by_cases hk : k = uid
    · simp [findUser, hk]
    · simp only [List.map_cons, findUser, if_neg hk]
      exact ih

theorem forceOff_closed {u : UserRec} (now : Int) (hu : inv u) :
    (forceOff u now).active = false ∧ (forceOff u now).first_seen = none := by
  by_cases ha : u.active
  · simp [forceOff, ha]
  · have ha' : u.active = false := by simpa using ha
    have hfs : u.first_seen = none := by
      unfold inv at hu
      rw [ha'] at hu
      exact Option.not_isSome_iff_eq_none.mp (by simp [hu])
    simp [forceOff, ha', hfs]

theorem runPairs_spec : ∀ (ps : List (Int × Int)) (u : UserRec), u.active = false →
    ∃ u', runPairs u ps = some u' ∧ u'.active = false ∧
      u'.total = u.total + sumPairs ps := by
  intro ps
  induction ps with
  | nil =>
    intro u hu
    refine ⟨u, rfl, hu, ?_⟩
    simp [sumPairs]
  | cons p rest ih =>
    intro u hu
    obtain ⟨tOn, tOff⟩ := p
    have h1 : applyPresenceRec u true tOn = some (setOnlineRec u tOn) := by
      simp [applyPresenceRec, hu]
    have h2 : applyPresenceRec (setOnlineRec u tOn) false tOff =
        some { u with active := false, first_seen := none,
                      total := u.total + (tOff - tOn) } := by
      simp [applyPresenceRec, setOnlineRec, setOfflineRec]
    obtain ⟨u', hrun, hact, htot⟩ := ih
      { u with active := false, first_seen := none,
               total := u.total + (tOff - tOn) } rfl
    refine ⟨u', ?_, hact, ?_⟩
    · simp only [runPairs, h1, h2]
      exact hrun
    · rw [htot]
      simp only [sumPairs, List.map_cons, List.sum_cons]
      ring_nf
      omega

/-- Claim C1: for one user record, any alternating online/offline sequence
of presence transitions (via _update_user's transition logic) starting from
an inactive record ends inactive with total grown by exactly the sum of the
(offline_time - online_time) pairs, which is also the live total afterwards;
and re-applying the same presence boolean right after an application is a
no-op on the record. -/
theorem claim_C1 (u : UserRec) (ps : List (Int × Int)) :
    (u.active = false →
      ∃ u', runPairs u ps = some u' ∧ u'.active = false ∧
        u'.total = u.total + sumPairs ps ∧
        ∀ now, liveTotal u' now = some (u.total + sumPairs ps)) ∧
    (∀ b t t' u1, applyPresenceRec u b t = some u1 →
      applyPresenceRec u1 b t' = some u1) := by
  constructor
  · intro hu
    obtain ⟨u', hrun, hact, htot⟩ := runPairs_spec ps u hu
    refine ⟨u', hrun, hact, htot, ?_⟩
    intro now
    simp [liveTotal, hact, htot]
  · intro b t t' u1 h
    exact applyPresenceRec_matched t' (applyPresenceRec_active h)

theorem claim_C1_witness :
    (∃ u', runPairs (freshRec p0) [(0, 100), (150, 170)] = some u' ∧
      u'.active = false ∧
      u'.total = (freshRec p0).total + sumPairs [(0, 100), (150, 170)] ∧
      ∀ now, liveTotal u' now =
        some ((freshRec p0).total + sumPairs [(0, 100), (150, 170)])) ∧
    applyPresenceRec (UserRec.mk p0 true (some 3) 0) true 9 =
      some (UserRec.mk p0 true (some 3) 0) :=
  ⟨(claim_C1 (freshRec p0) [(0, 100), (150, 170)]).1 (by decide),
   (claim_C1 (UserRec.mk p0 true (some 3) 0) []).2 true 3 9
     (UserRec.mk p0 true (some 3) 0) (by decide)⟩

/-- Claim C2: liveTotal (the per-user total computed in the scores branch)
returns totalActiveSeconds for an inactive record, and
totalActiveSeconds + (now - sessionStart) for an active record with
sessionStart t0 and any now = t1 >= t0; and this live value is exactly the
number rendered in the user's scores line. -/
theorem claim_C2 (u : UserRec) (now t0 t1 : Int) :
    (u.active = false → liveTotal u now = some u.total) ∧
    (u.active = true → u.first_seen = some t0 → t0 ≤ t1 →
      liveTotal u t1 = some (u.total + (t1 - t0))) ∧
    (∀ t, liveTotal u now = some t →
      scoreLine u now = some (displayName u.profile ++ ": " ++ toString t)) := by
  refine ⟨?_, ?_, ?_⟩
  · intro h
    simp [liveTotal, h]
  · intro ha hf _
    simp [liveTotal, ha, hf]
  · intro t h
    simp [scoreLine, h]

theorem claim_C2_witness :
    liveTotal (UserRec.mk p0 true (some 5) 100) 25 = some (100 + (25 - 5)) ∧
    scoreLine (UserRec.mk p0 true (some 5) 100) 25 =
      some (displayName p0 ++ ": " ++ toString (120 : Int)) :=
  ⟨(claim_C2 (UserRec.mk p0 true (some 5) 100) 25 5 25).2.1 rfl rfl (by decide),
   (claim_C2 (UserRec.mk p0 true (some 5) 100) 25 5 25).2.2 120 (by decide)⟩

/-- Claim C3: the session invariant - first_seen is set iff active is true -
holds of a fresh record and is preserved by set_online, set_offline,
_update_user (record creation included), the save transform, and the full
membership re-sync (load-and-resync). -/
theorem claim_C3 (p : Profile) :
    inv (freshRec p) ∧
    (∀ u now, inv (setOnlineRec u now)) ∧
    (∀ u now u', setOfflineRec u now = some u' → inv u') ∧
    (∀ (env : SlackEnv) l uid l', invAll l → updateUser env l uid = some l' →
      invAll l') ∧
    (∀ l now l', invAll l → saveTransform l now = some l' → invAll l') ∧
    (∀ (env : SlackEnv) members l l', invAll l →
      updateAllUsers env members l = some l' → invAll l') := by
  refine ⟨inv_freshRec p, fun u now => inv_setOnlineRec u now,
    fun u now u' h => inv_setOfflineRec h,
    fun env l uid l' h he => updateUser_invAll h he, ?_,
    fun env members l l' h he => updateAllUsers_invAll members l l' h he⟩
  intro l now l' h he
  rw [saveTransform_eq_map h] at he
  cases he
  intro q hq
  rw [List.mem_map] at hq
  obtain ⟨p', hp', rfl⟩ := hq
  have hc := forceOff_closed now (h p' hp')
  unfold inv
  rw [hc.1, hc.2]
  rfl

/-- Concrete environment for witnesses: every queried profile is a human,
everyone currently active, clock at 50. -/
def env1 : SlackEnv :=
  { get_user_info := fun _ => { is_bot := false, profile := p0 },
    is_user_active := fun _ => true, now := 50,
    channel_members := ["U1"], db_users := [] }

theorem claim_C3_witness : invAll [("U1", UserRec.mk p0 true (some 50) 0)] :=
  (claim_C3 p0).2.2.2.1 env1 [("U1", freshRec p0)] "U1"
    [("U1", UserRec.mk p0 true (some 50) 0)] (by decide) (by decide)

/-- Claim C4 (amended): totalActiveSeconds changes only at an
active-to-inactive transition, and there by exactly now - sessionStart; with
a nondecreasing clock (sessionStart <= now) it never decreases; but a
negative elapsed duration is NOT clamped - see the counterexample. -/
theorem claim_C4 (u u' : UserRec) (b : Bool) (now : Int) :
    (applyPresenceRec u b now = some u' →
      (u'.total = u.total ∨
        (u.active = true ∧ b = false ∧
          ∃ t0, u.first_seen = some t0 ∧ u'.total = u.total + (now - t0)))) ∧
    (∀ t0, u.first_seen = some t0 → t0 ≤ now →
      applyPresenceRec u b now = some u' → u.total ≤ u'.total) ∧
    (u.active = false → applyPresenceRec u b now = some u' →
      u'.total = u.total) := by
  refine ⟨fun h => applyPresenceRec_total h, ?_, ?_⟩
  · intro t0 hfs hle h
    rcases applyPresenceRec_total h with he | ⟨_, _, t0', hfs', he⟩
    · omega
    · rw [hfs] at hfs'
      cases hfs'
      omega
  · intro ha h
    rcases applyPresenceRec_total h with he | ⟨ha', _⟩
    · exact he
    · rw [ha] at ha'
      cases ha'

/-- Claim C4 counterexample: a presence-false transition with now (= 5)
earlier than sessionStart (= 10) is not clamped: the total drops from 7 to
2, refuting "elapsed is clamped to zero rather than ever decreasing the
total". -/
theorem claim_C4_counterexample :
    applyPresenceRec (UserRec.mk p0 true (some 10) 7) false 5 =
      some (UserRec.mk p0 false none 2) ∧ (2 : Int) < 7 := by decide

theorem claim_C4_witness :
    (UserRec.mk p0 true (some 2) 10).total ≤ (UserRec.mk p0 false none 17).total :=
  (claim_C4 (UserRec.mk p0 true (some 2) 10) (UserRec.mk p0 false none 17)
    false 9).2.1 2 rfl (by decide) (by decide)

/-- Claim C5: save persists (via the deep copy handed to the persistence
gateway) a ledger in which every user is inactive with first_seen absent;
a user active at save time with prior total T and open session started at
t0 is persisted with total T + (now - t0), and an inactive user is persisted
with an unchanged total.  The live ledger component of saveOp is the input
itself (the copy is what gets mutated). -/
theorem claim_C5 (l : Ledger) (now : Int) (h : invAll l) :
    ∃ p, saveOp l now = some (l, p) ∧
      (∀ k u', findUser k p = some u' →
        u'.active = false ∧ u'.first_seen = none) ∧
      (∀ k u, findUser k l = some u →
        ∃ u', findUser k p = some u' ∧
          (u.active = false → u'.total = u.total) ∧
          (∀ t0, u.active = true → u.first_seen = some t0 →
            u'.total = u.total + (now - t0))) := by
  refine ⟨l.map (fun q => (q.1, forceOff q.2 now)), ?_, ?_, ?_⟩
  · unfold saveOp
    rw [saveTransform_eq_map h]
    rfl
  · intro k u' hk
    rw [findUser_map_forceOff] at hk
    cases hfl : findUser k l with
    | none => rw [hfl] at hk; cases hk
    | some u =>
      rw [hfl] at hk
      cases hk
      exact forceOff_closed now (h _ (mem_of_findUser hfl))
  · intro k u hk
    refine ⟨forceOff u now, ?_, ?_, ?_⟩
    · rw [findUser_map_forceOff, hk]
      rfl
    · intro ha
      simp [forceOff, ha]
    · intro t0 ha hf
      simp [forceOff, ha, hf]

theorem claim_C5_witness :
    invAll [("U", UserRec.mk p0 true (some 30) 10)] ∧
    ∃ p, saveOp [("U", UserRec.mk p0 true (some 30) 10)] 50 =
        some ([("U", UserRec.mk p0 true (some 30) 10)], p) ∧
      (∀ k u', findUser k p = some u' →
        u'.active = false ∧ u'.first_seen = none) ∧
      (∀ k u, findUser k [("U", UserRec.mk p0 true (some 30) 10)] = some u →
        ∃ u', findUser k p = some u' ∧
          (u.active = false → u'.total = u.total) ∧
          (∀ t0, u.active = true → u.first_seen = some t0 →
            u'.total = u.total + (50 - t0))) :=
  ⟨by decide, claim_C5 [("U", UserRec.mk p0 true (some 30) 10)] 50 (by decide)⟩

/-- Claim C6: a user id whose fetched profile is flagged is_bot never gets a
ledger record from _update_user - a single call returns the ledger
unchanged, and so does any number of repeated calls. -/
theorem claim_C6 (env : SlackEnv) (l : Ledger) (uid : String)
    (h1 : findUser uid l = none) (h2 : (env.get_user_info uid).is_bot = true) :
    updateUser env l uid = some l ∧ ∀ n, repeatUpdate env uid n l = some l := by
  have hstep : updateUser env l uid = some l := by
    simp [updateUser, h1, h2]
  refine ⟨hstep, ?_⟩
  intro n
  induction n with
  | zero => rfl
  | succ n ih =>
    simp only [repeatUpdate, hstep]
    exact ih

/-- Concrete environment for witnesses: every queried profile is a bot. -/
def env2 : SlackEnv :=
  { get_user_info := fun _ => { is_bot := true, profile := p0 },
    is_user_active := fun _ => true, now := 0,
    channel_members := [], db_users := [] }

theorem claim_C6_witness :
    findUser "B1" [] = none ∧ (env2.get_user_info "B1").is_bot = true ∧
    updateUser env2 [] "B1" = some [] ∧
    ∀ n, repeatUpdate env2 "B1" n [] = some [] :=
  ⟨rfl, rfl, (claim_C6 env2 [] "B1" rfl rfl).1, (claim_C6 env2 [] "B1" rfl rfl).2⟩

/-- Claim C7 (amended): an event carrying an unrecognized type string is
ignored - ledger unchanged, nothing emitted, no failure; but event handling
is NOT total: an event missing its type field, a message event missing its
text field, and a presence_change event missing its user field each raise a
field-lookup error (modelled as none) instead of being dropped. -/
theorem claim_C7 (env : SlackEnv) (selfId : String) (users : Ledger)
    (e : Event) (t : String) :
    (e.type = some t → t ≠ "message" → t ≠ "presence_change" →
      handleEvent env selfId users e = some (users, [])) ∧
    (e.type = none → handleEvent env selfId users e = none) ∧
    (e.type = some "message" → e.text = none →
      handleEvent env selfId users e = none) ∧
    (e.type = some "presence_change" → e.user = none →
      handleEvent env selfId users e = none) := by
  refine ⟨?_, ?_, ?_, ?_⟩
  · intro ht h1 h2
    simp [handleEvent, ht, h1, h2]
  · intro ht
    simp [handleEvent, ht]
  · intro ht htext
    simp [handleEvent, ht, handleMessage, htext]
  · intro ht huser
    simp [handleEvent, ht, handlePresenceChange, huser]

/-- Concrete environment for witnesses: humans, nobody active, clock 0. -/
def env0 : SlackEnv :=
  { get_user_info := fun _ => { is_bot := false, profile := p0 },
    is_user_active := fun _ => false, now := 0,
    channel_members := [], db_users := [] }

/-- Claim C7 counterexample: a message-typed event with no text field makes
_handle_message raise KeyError (none), refuting "handling ... never fails
(the event-handling function is total and the error branch unreachable)". -/
theorem claim_C7_counterexample :
    handleEvent env0 "B" []
      { type := some "message", text := none, user := none, channel := none } =
      none := by decide

theorem claim_C7_witness :
    handleEvent env0 "B" []
      { type := some "user_typing", text := none, user := none, channel := none } =
      some ([], []) :=
  (claim_C7 env0 "B" []
    { type := some "user_typing", text := none, user := none, channel := none }
    "user_typing").1 rfl (by decide) (by decide)

/-- Claim C8 (amended): a message is dispatched as a command iff its text
starts with the bot mention AND splits into at least two
whitespace-separated tokens; the command name is the SECOND token of the
whole text (equal to the first token after the mention only when the
mention is followed by whitespace), compared lowercased; the remaining
tokens are the arguments; an unrecognized command name produces no outbound
message and leaves the ledger unchanged. -/
theorem claim_C8 (selfId text cmd : String) (args : List String)
    (env : SlackEnv) (users : Ledger) (ch : Option String) :
    (parseCommand selfId text = some (cmd, args) ↔
      (pyStartsWith text ("<@" ++ selfId ++ ">") = true ∧
        ∃ t0, pySplit text = t0 :: cmd :: args)) ∧
    (pyLower cmd ≠ "hello" → pyLower cmd ≠ "hi" → pyLower cmd ≠ "scores" →
      pyLower cmd ≠ "save" → pyLower cmd ≠ "load" →
      handleCommand env users ch cmd args = some (users, [])) := by
  constructor
  · unfold parseCommand
    by_cases hs : pyStartsWith text ("<@" ++ selfId ++ ">") = true
    · rw [if_pos hs]
      cases hsplit : pySplit text with
      | nil =>
        simp only [hsplit]
        constructor
        · intro hcon
          cases hcon
        · rintro ⟨-, t0, hcon⟩
          cases hcon
      | cons a rest =>
        cases rest with
        | nil =>
          simp only [hsplit]
          constructor
          · intro hcon
            cases hcon
          · rintro ⟨-, t0, hcon⟩
            cases hcon
        | cons b rest2 =>
          simp only [hsplit]
          constructor
          · intro hsome
            cases hsome
            exact ⟨hs, a, rfl⟩
          · rintro ⟨-, t0, hcon⟩
            cases hcon
            rfl
    · rw [if_neg hs]
      constructor
      · intro hcon
        cases hcon
      · rintro ⟨h1, -⟩
        exact absurd h1 hs
  · intro h1 h2 h3 h4 h5
    unfold handleCommand
    rw [if_neg (fun hor => hor.elim h1 h2), if_neg h3, if_neg h4, if_neg h5]

/-- Claim C8 counterexample: with bot id B and the text "<@B>hi there" (the
mention glued to the next word), the code dispatches command "there",
whereas the first whitespace-separated token after the mention is "hi" -
refuting "the first whitespace-separated token after the mention ... is the
command name". -/
theorem claim_C8_counterexample :
    parseCommand "B" "<@B>hi there" = some ("there", []) ∧
    firstTokenAfterMention "B" "<@B>hi there" = some "hi" ∧
    ("there" : String) ≠ "hi" := by decide

theorem claim_C8_witness :
    parseCommand "B" "<@B> xyz a" = some ("xyz", ["a"]) ∧
    handleCommand env0 [] (some "C") "xyz" ["a"] = some ([], []) :=
  ⟨((claim_C8 "B" "<@B> xyz a" "xyz" ["a"] env0 [] (some "C")).1).mpr
      ⟨by decide, "<@B>", by decide⟩,
   (claim_C8 "B" "<@B> xyz a" "xyz" ["a"] env0 [] (some "C")).2
      (by decide) (by decide) (by decide) (by decide) (by decide)⟩

/-- Claim C9: re-running the membership sync on a populated ledger never
resets a present user's total and never re-creates the record: the user's
profile is preserved and the total is either unchanged or grown by exactly
now - sessionStart through a legitimate active-to-inactive transition (and,
with a nondecreasing clock, never smaller). -/
theorem claim_C9 (env : SlackEnv) (members : List String) (l : Ledger)
    (uid : String) (u : UserRec)
    (hInv : invAll l) (hu : findUser uid l = some u)
    (hmono : ∀ t0, u.first_seen = some t0 → t0 ≤ env.now) :
    ∃ l' u', updateAllUsers env members l = some l' ∧
      findUser uid l' = some u' ∧ u'.profile = u.profile ∧
      u.total ≤ u'.total ∧
      (u'.total = u.total ∨
        (u.active = true ∧ ∃ t0, u.first_seen = some t0 ∧
          u'.total = u.total + (env.now - t0))) := by
  obtain ⟨l', v', hl', hInv', hv', hs'⟩ :=
    @updateAll_entry env uid u members l u hInv hu (Or.inl rfl)
  refine ⟨l', v', hl', hv', ?_, ?_, ?_⟩
  · rcases hs' with rfl | hs
    · rfl
    · exact applyPresenceRec_profile hs
  · rcases hs' with rfl | hs
    · exact le_refl _
    · rcases applyPresenceRec_total hs with he | ⟨ha, hb, t0, hf, he⟩
      · omega
      · have := hmono t0 hf
        omega
  · rcases hs' with rfl | hs
    · exact Or.inl rfl
    · rcases applyPresenceRec_total hs with he | ⟨ha, hb, t0, hf, he⟩
      · exact Or.inl he
      · exact Or.inr ⟨ha, t0, hf, he⟩

/-- Concrete environment for witnesses: humans, nobody active, clock 50. -/
def env3 : SlackEnv :=
  { get_user_info := fun _ => { is_bot := false, profile := p0 },
    is_user_active := fun _ => false, now := 50,
    channel_members := ["U1"], db_users := [] }

theorem claim_C9_witness :
    ∃ l' u', updateAllUsers env3 ["U1"]
        [("U1", UserRec.mk p0 true (some 30) 10)] = some l' ∧
      findUser "U1" l' = some u' ∧
      u'.profile = (UserRec.mk p0 true (some 30) 10).profile ∧
      (UserRec.mk p0 true (some 30) 10).total ≤ u'.total ∧
      (u'.total = (UserRec.mk p0 true (some 30) 10).total ∨
        ((UserRec.mk p0 true (some 30) 10).active = true ∧
          ∃ t0, (UserRec.mk p0 true (some 30) 10).first_seen = some t0 ∧
            u'.total = (UserRec.mk p0 true (some 30) 10).total + (env3.now - t0))) :=
  claim_C9 env3 ["U1"] [("U1", UserRec.mk p0 true (some 30) 10)] "U1"
    (UserRec.mk p0 true (some 30) 10) (by decide) (by decide)
    (by intro t0 ht; injection ht with h; rw [← h]; decide)

/-- Claim C10: save does not mutate the live in-memory ledger - the forced
offline transitions run on the deep copy only, so the live component
returned by saveOp is exactly the input ledger, every field included. -/
theorem claim_C10 (users : Ledger) (now : Int) (r : Ledger × Ledger)
    (h : saveOp users now = some r) : r.1 = users := by
  unfold saveOp at h
  cases hs : saveTransform users now with
  | none => rw [hs] at h; cases h
  | some snap =>
    rw [hs] at h
    cases h
    rfl

theorem claim_C10_witness :
    saveOp [("U", UserRec.mk p0 true (some 1) 5)] 3 =
      some ([("U", UserRec.mk p0 true (some 1) 5)],
            [("U", UserRec.mk p0 false none 7)]) ∧
    ([("U", UserRec.mk p0 true (some 1) 5)],
      [("U", UserRec.mk p0 false none 7)]).1 =
      [("U", UserRec.mk p0 true (some 1) 5)] :=
  ⟨by decide,
   claim_C10 [("U", UserRec.mk p0 true (some 1) 5)] 3
     ([("U", UserRec.mk p0 true (some 1) 5)],
      [("U", UserRec.mk p0 false none 7)]) (by decide)⟩

end IdleRpg
